import Mathlib

/-!
# Assessment workflow and scoring model — verification development

Shallow embedding of the assessment-queue workflow implemented in
`src/pages/AssessmentQueuePage.tsx`: the pending-idea query, idea selection
(with the `submitted → under_review` status transition), the per-session
assessment draft (scores and rationales keyed by dimension strings),
completeness validation, and the transactional submission of an assessment.

The component imports `Idea`, `ScoreLevel` (from `../data/ideas`) and
`ideaService` (from `../services/ideaService`); those two modules are not part
of the sources available here, so their definitions are modelled from the
specification and marked as such in their doc comments.  Everything else is a
direct translation of `AssessmentQueuePage.tsx`.

Store interaction is embedded as an explicit trace: every handler returns,
besides the updated session state, the list of `StoreCall`s it issued, so that
"the store is never contacted" and "the store receives exactly one update" are
statements about that list.  The asynchronous store submit is embedded by
parametrising the handler on the store outcome (`storeOk : Bool`).
-/

namespace AssessmentQueue

/-- Modelled from the spec (the `Idea` type lives in `src/data/ideas`, absent
from the available sources): an idea's lifecycle status, one of
`submitted | under_review | assessed | rejected`. -/
inductive Status where
  | submitted
  | under_review
  | assessed
  | rejected
deriving DecidableEq, Repr

/-- Modelled from the spec (the `ScoreLevel` type lives in `src/data/ideas`,
absent from the available sources): an ordered discrete rating, a closed
enumeration Low/Medium/High shared by all dimensions.  Every level is a
JS-truthy value, so the source's truthiness test `scores[dim]` in
`isComplete` is exactly key-presence, embedded as `Option.isSome`. -/
inductive ScoreLevel where
  | low
  | medium
  | high
deriving DecidableEq, Repr

/-- Modelled from the spec (the `Idea` record lives in `src/data/ideas`,
absent from the available sources): an idea record as the core sees it — a
unique `id` plus the lifecycle `status`.  The remaining fields (`title`,
`description`, `expectedBenefits`, `aiCapabilityArea`, `businessFunction`,
`submitterName`, `createdAt`) are descriptive and opaque to the core, so they
are omitted from the embedding. -/
structure Idea where
  id : Nat
  status : Status
deriving DecidableEq, Repr

/-- The draft's score map: the source keeps `scores` as a
`Record<string, ScoreLevel>`, i.e. a partial map from arbitrary string keys
to levels. -/
def Scores := String → Option ScoreLevel

/-- The draft's rationale map: the source keeps `rationales` as a
`Record<string, string>`. -/
def Rationales := String → Option String

/-- The initial (and reset) value of the score map: `{}` in the source. -/
def emptyScores : Scores := fun _ => none

/-- The initial (and reset) value of the rationale map: `{}` in the source. -/
def emptyRationales : Rationales := fun _ => none

/-- `handleScoreChange` (AssessmentQueuePage.tsx, lines 43–45):
`setScores(prev => ({ ...prev, [dimension]: score }))` — overwrites or inserts
the level under the given key, for any string key whatsoever. -/
def handleScoreChange (dimension : String) (score : ScoreLevel) (prev : Scores) : Scores :=
  fun d => if d = dimension then some score else prev d

/-- `handleRationaleChange` (AssessmentQueuePage.tsx, lines 47–49):
`setRationales(prev => ({ ...prev, [dimension]: rationale }))`. -/
def handleRationaleChange (dimension : String) (rationale : String) (prev : Rationales) :
    Rationales :=
  fun d => if d = dimension then some rationale else prev d

/-- The `requiredDimensions` list from `isComplete`
(AssessmentQueuePage.tsx, lines 52–55): the seven assessment dimensions. -/
def requiredDimensions : List String :=
  ["businessGrowth", "costEfficiency", "businessResilience", "businessAgility",
   "technicalFeasibility", "internalReadiness", "externalReadiness"]

/-- `isComplete` (AssessmentQueuePage.tsx, lines 51–57):
`requiredDimensions.every(dim => scores[dim])`.  The truthiness test on a
`ScoreLevel` is key-presence (see `ScoreLevel`).  Note that the function reads
only the score map — rationales are not consulted at all. -/
def isComplete (scores : Scores) : Bool :=
  requiredDimensions.all fun dim => (scores dim).isSome

/-- A sequence of `handleScoreChange` calls applied in order to a score map. -/
def applyScoreChanges (calls : List (String × ScoreLevel)) (scores : Scores) : Scores :=
  calls.foldl (fun acc c => handleScoreChange c.1 c.2 acc) scores

lemma applyScoreChanges_nil (scores : Scores) : applyScoreChanges [] scores = scores := rfl

lemma applyScoreChanges_cons (c : String × ScoreLevel) (t : List (String × ScoreLevel))
    (scores : Scores) :
    applyScoreChanges (c :: t) scores = applyScoreChanges t (handleScoreChange c.1 c.2 scores) :=
  rfl

lemma isSome_applyScoreChanges (calls : List (String × ScoreLevel)) (scores : Scores)
    (d : String) :
    (applyScoreChanges calls scores d).isSome = true ↔
      d ∈ calls.map Prod.fst ∨ (scores d).isSome = true := by
  induction calls generalizing scores with
  | nil => simp [applyScoreChanges_nil]
  | cons c t ih =>
    rw [applyScoreChanges_cons, ih]
    simp only [List.map_cons, List.mem_cons, handleScoreChange]
    by_cases h : d = c.1
    · simp [h]
    · simp [h]

/-! ## Store model and call traces -/

/-- A record submitted to the store, mirroring the object literal built in
`handleSubmitAssessment` (AssessmentQueuePage.tsx, lines 67–77): the seven
dimension fields are the draft's map entries (`scores.businessGrowth` etc.,
possibly absent in JS, hence `Option`), the whole rationale map, and the
`assessedBy` attribution string. -/
structure AssessmentRecord where
  businessGrowth : Option ScoreLevel
  costEfficiency : Option ScoreLevel
  businessResilience : Option ScoreLevel
  businessAgility : Option ScoreLevel
  technicalFeasibility : Option ScoreLevel
  internalReadiness : Option ScoreLevel
  externalReadiness : Option ScoreLevel
  rationales : Rationales
  assessedBy : String

/-- One call issued to the `ideaService` store collaborator.  Handlers return
the list of calls they issue, in order, so claims about the store never being
contacted, or being contacted exactly once, are claims about this trace. -/
inductive StoreCall where
  | getIdeasByStatus (status : Status)
  | updateIdeaStatus (id : Nat) (status : Status)
  | submitAssessment (id : Nat) (record : AssessmentRecord)

/-- Whether a store call is a status update (used to count writes). -/
def StoreCall.isStatusUpdate : StoreCall → Bool
  | .updateIdeaStatus _ _ => true
  | _ => false

/-- Whether a store call is a read (query by status). -/
def StoreCall.isQuery : StoreCall → Bool
  | .getIdeasByStatus _ => true
  | _ => false

/-- Modelled from the spec (`ideaService` lives in `src/services/ideaService`,
absent from the available sources): `queryByStatus(status) -> sequence of
Idea` — the ideas currently holding the given status, in store order. -/
def getIdeasByStatus (status : Status) (store : List Idea) : List Idea :=
  store.filter fun idea => idea.status = status

/-- Modelled from the spec (`ideaService` absent from the available sources):
`updateStatus(ideaId, newStatus)` — rewrites the status of the idea with the
given id. -/
def updateIdeaStatus (id : Nat) (newStatus : Status) (store : List Idea) : List Idea :=
  store.map fun idea => if idea.id = id then { idea with status := newStatus } else idea

/-- Modelled from the spec (`ideaService` absent from the available sources):
the store's `submitAssessment(ideaId, record)` durably marks the idea
`assessed` (and persists the record, which the core never reads back) as one
atomic unit. -/
def storeSubmitAssessment (id : Nat) (store : List Idea) : List Idea :=
  updateIdeaStatus id Status.assessed store

/-- The result of `fetchPendingIdeas` (AssessmentQueuePage.tsx, lines 24–30):
the `submitted` query result concatenated with the `under_review` query
result. -/
def fetchPendingIdeasResult (store : List Idea) : List Idea :=
  getIdeasByStatus Status.submitted store ++ getIdeasByStatus Status.under_review store

/-- The trace issued by `fetchPendingIdeas`: one query per status, in source
order. -/
def fetchCalls : List StoreCall :=
  [StoreCall.getIdeasByStatus Status.submitted, StoreCall.getIdeasByStatus Status.under_review]

/-! ## Session state and handlers -/

/-- The component's per-session state: the `pendingIdeas`, `selectedIdea`,
`submitting`, `scores` and `rationales` pieces of React state
(AssessmentQueuePage.tsx, lines 11–18).  `loading` is presentation-only and
omitted. -/
structure SessionState where
  pendingIdeas : List Idea
  selectedIdea : Option Idea
  submitting : Bool
  scores : Scores
  rationales : Rationales

/-- Outcome of a handler that issues no submit: the new session state, the
new store contents, and the trace of store calls issued. -/
structure SelectOutcome where
  session : SessionState
  store : List Idea
  calls : List StoreCall

/-- `handleSelectIdea` (AssessmentQueuePage.tsx, lines 32–41): set the
selection, reset scores and rationales, and — only when the idea's status is
`submitted` — update its status to `under_review` and refresh the pending
list. -/
def handleSelectIdea (idea : Idea) (st : SessionState) (store : List Idea) : SelectOutcome :=
  let st1 : SessionState :=
    { st with selectedIdea := some idea, scores := emptyScores, rationales := emptyRationales }
  if idea.status = Status.submitted then
    let store1 := updateIdeaStatus idea.id Status.under_review store
    { session := { st1 with pendingIdeas := fetchPendingIdeasResult store1 }
      store := store1
      calls := StoreCall.updateIdeaStatus idea.id Status.under_review :: fetchCalls }
  else
    { session := st1, store := store, calls := [] }

/-- The Cancel button (AssessmentQueuePage.tsx, lines 195–200):
`onClick={() => setSelectedIdea(null)}` — it clears the selection and nothing
else; the store is untouched. -/
def cancelSelection (st : SessionState) (store : List Idea) : SelectOutcome :=
  { session := { st with selectedIdea := none }, store := store, calls := [] }

/-- The result reported by `handleSubmitAssessment`: the validation warning
toast, the success toast, or the store-failure error toast. -/
inductive SubmitResult where
  | validationError
  | success
  | submissionError
deriving DecidableEq, Repr

/-- The assessment record built in `handleSubmitAssessment`
(AssessmentQueuePage.tsx, lines 67–77) from the current draft; `assessedBy`
is the attribution, the string literal `'Assessment Team'` in the source. -/
def buildAssessmentRecord (st : SessionState) : AssessmentRecord :=
  { businessGrowth := st.scores "businessGrowth"
    costEfficiency := st.scores "costEfficiency"
    businessResilience := st.scores "businessResilience"
    businessAgility := st.scores "businessAgility"
    technicalFeasibility := st.scores "technicalFeasibility"
    internalReadiness := st.scores "internalReadiness"
    externalReadiness := st.scores "externalReadiness"
    rationales := st.rationales
    assessedBy := "Assessment Team" }

/-- Outcome of `handleSubmitAssessment`: the reported result, the new session
state, the new store contents, and the trace of store calls issued. -/
structure SubmitOutcome where
  result : SubmitResult
  session : SessionState
  store : List Idea
  calls : List StoreCall

/-- `handleSubmitAssessment` (AssessmentQueuePage.tsx, lines 59–89).  The
guard `!selectedIdea || !isComplete()` refuses with the validation warning
before any store contact.  Otherwise the record is built and submitted; the
async store call's outcome is the parameter `storeOk`.  On success the
selection, scores and rationales are cleared and the pending list re-queried
against the store that now holds the idea as `assessed`; on failure nothing
but the `submitting` flag changes (the `finally` clause resets it in either
case). -/
def handleSubmitAssessment (st : SessionState) (store : List Idea) (storeOk : Bool) :
    SubmitOutcome :=
  match st.selectedIdea with
  | none => { result := SubmitResult.validationError, session := st, store := store, calls := [] }
  | some idea =>
    if isComplete st.scores = false then
      { result := SubmitResult.validationError, session := st, store := store, calls := [] }
    else
      let record := buildAssessmentRecord st
      if storeOk then
        let store1 := storeSubmitAssessment idea.id store
        { result := SubmitResult.success
          session :=
            { pendingIdeas := fetchPendingIdeasResult store1
              selectedIdea := none
              submitting := false
              scores := emptyScores
              rationales := emptyRationales }
          store := store1
          calls := StoreCall.submitAssessment idea.id record :: fetchCalls }
      else
        { result := SubmitResult.submissionError
          session := { st with submitting := false }
          store := store
          calls := [StoreCall.submitAssessment idea.id record] }

/-- The start phase of `handleSubmitAssessment`, up to and including the
dispatch of the store call (AssessmentQueuePage.tsx, lines 59–77): the
validation guard runs first; a dispatched submit is preceded by
`setSubmitting(true)`, so a session with a submit in flight has
`submitting = true`. -/
def handleSubmitAssessmentStart (st : SessionState) :
    Option SubmitResult × SessionState × List StoreCall :=
  match st.selectedIdea with
  | none => (some SubmitResult.validationError, st, [])
  | some idea =>
    if isComplete st.scores = false then
      (some SubmitResult.validationError, st, [])
    else
      (none, { st with submitting := true },
        [StoreCall.submitAssessment idea.id (buildAssessmentRecord st)])

/-- The `disabled` condition of the submit button
(AssessmentQueuePage.tsx, line 204): `!isComplete() || submitting`. -/
def submitDisabled (st : SessionState) : Bool :=
  !(isComplete st.scores) || st.submitting

/-- Outcome of a click on the submit button: `result = none` when the click
was on a disabled button and nothing ran. -/
structure ClickOutcome where
  result : Option SubmitResult
  session : SessionState
  store : List Idea
  calls : List StoreCall

/-- A click on the submit button (AssessmentQueuePage.tsx, lines 201–208):
a disabled button does not fire its `onClick`, so `handleSubmitAssessment`
runs only when the draft is complete and no submit is in flight. -/
def clickSubmit (st : SessionState) (store : List Idea) (storeOk : Bool) : ClickOutcome :=
  if submitDisabled st then
    { result := none, session := st, store := store, calls := [] }
  else
    let r := handleSubmitAssessment st store storeOk
    { result := some r.result, session := r.session, store := r.store, calls := r.calls }

/-! ## The core as a state machine (for the status-monotonicity invariant) -/

/-- The whole core state: the store contents plus the session state. -/
structure CoreState where
  store : List Idea
  session : SessionState

/-- One operation of the core, as reachable from the page: selecting a listed
idea, cancelling, clicking submit (with the store's outcome), or refreshing
the pending list. -/
inductive Op where
  | select (idea : Idea)
  | cancel
  | submit (storeOk : Bool)
  | refresh

/-- Run one core operation, reusing the embedded handlers. -/
def stepOp : Op → CoreState → CoreState
  | Op.select idea, s =>
    let r := handleSelectIdea idea s.session s.store
    { store := r.store, session := r.session }
  | Op.cancel, s =>
    let r := cancelSelection s.session s.store
    { store := r.store, session := r.session }
  | Op.submit storeOk, s =>
    let r := handleSubmitAssessment s.session s.store storeOk
    { store := r.store, session := r.session }
  | Op.refresh, s =>
    { store := s.store
      session := { s.session with pendingIdeas := fetchPendingIdeasResult s.store } }

/-- Guard for an operation being reachable from the page: the idea buttons are
rendered from `pendingIdeas` (AssessmentQueuePage.tsx, line 124), so
`handleSelectIdea` only ever receives a listed idea. -/
def WfOp : Op → CoreState → Prop
  | Op.select idea, s => idea ∈ s.session.pendingIdeas
  | _, _ => True

/-- Position of a status on the forward path
`submitted → under_review → assessed` (with `rejected` terminal and off the
core's path). -/
def statusRank : Status → Nat
  | Status.submitted => 0
  | Status.under_review => 1
  | Status.assessed => 2
  | Status.rejected => 3

/-- Per-entry monotonicity: same idea, status no earlier than before. -/
def StatusLe (a b : Idea) : Prop :=
  a.id = b.id ∧ statusRank a.status ≤ statusRank b.status

/-- The state invariant the core maintains: store ids are unique, every listed
pending idea is a store entry whose status is `submitted` or `under_review`,
and the selected idea's store entry is `under_review`. -/
def GoodState (s : CoreState) : Prop :=
  (s.store.map Idea.id).Nodup ∧
  (∀ idea ∈ s.session.pendingIdeas,
    idea ∈ s.store ∧ (idea.status = Status.submitted ∨ idea.status = Status.under_review)) ∧
  (∀ idea ∈ s.session.selectedIdea.toList,
    ∀ j ∈ s.store, j.id = idea.id → j.status = Status.under_review)

lemma mem_getIdeasByStatus {idea : Idea} {status : Status} {store : List Idea} :
    idea ∈ getIdeasByStatus status store ↔ idea ∈ store ∧ idea.status = status := by
  simp [getIdeasByStatus]

lemma mem_fetchPendingIdeasResult {idea : Idea} {store : List Idea} :
    idea ∈ fetchPendingIdeasResult store ↔
      idea ∈ store ∧ (idea.status = Status.submitted ∨ idea.status = Status.under_review) := by
  simp only [fetchPendingIdeasResult, List.mem_append, mem_getIdeasByStatus]
  tauto

lemma map_id_updateIdeaStatus (id : Nat) (newStatus : Status) (store : List Idea) :
    (updateIdeaStatus id newStatus store).map Idea.id = store.map Idea.id := by
  simp only [updateIdeaStatus, List.map_map]
  apply List.map_congr_left
  intro a _
  by_cases h : a.id = id <;> simp [h]

lemma mem_updateIdeaStatus {j : Idea} {id : Nat} {newStatus : Status} {store : List Idea} :
    j ∈ updateIdeaStatus id newStatus store ↔
      ∃ a ∈ store, j = if a.id = id then { a with status := newStatus } else a := by
  simp only [updateIdeaStatus, List.mem_map]
  constructor
  · rintro ⟨a, ha, rfl⟩
    exact ⟨a, ha, rfl⟩
  · rintro ⟨a, ha, rfl⟩
    exact ⟨a, ha, rfl⟩

lemma eq_of_mem_of_id_eq {store : List Idea} (hn : (store.map Idea.id).Nodup)
    {a b : Idea} (ha : a ∈ store) (hb : b ∈ store) (h : a.id = b.id) : a = b :=
  List.inj_on_of_nodup_map hn ha hb h

lemma forall₂_statusLe_updateIdeaStatus {store : List Idea} {id : Nat} {newStatus : Status}
    (h : ∀ a ∈ store, a.id = id → statusRank a.status ≤ statusRank newStatus) :
    List.Forall₂ StatusLe store (updateIdeaStatus id newStatus store) := by
  induction store with
  | nil => exact List.Forall₂.nil
  | cons a t ih =>
    have hcons : updateIdeaStatus id newStatus (a :: t) =
        (if a.id = id then { a with status := newStatus } else a) ::
          updateIdeaStatus id newStatus t := rfl
    rw [hcons]
    refine List.Forall₂.cons ?_ (ih fun b hb hid => h b (List.mem_cons_of_mem a hb) hid)
    by_cases hid : a.id = id
    · rw [if_pos hid]
      exact ⟨rfl, h a (List.mem_cons_self a t) hid⟩
    · rw [if_neg hid]
      exact ⟨rfl, le_refl _⟩

lemma forall₂_statusLe_refl (store : List Idea) : List.Forall₂ StatusLe store store :=
  List.forall₂_same.mpr fun _ _ => ⟨rfl, le_refl _⟩

lemma all_congr_of_eq {l : List String} {p q : String → Bool}
    (h : ∀ x ∈ l, p x = q x) : l.all p = l.all q := by
  induction l with
  | nil => rfl
  | cons a t ih =>
    simp only [List.all_cons]
    rw [h a (List.mem_cons_self a t), ih fun x hx => h x (List.mem_cons_of_mem a hx)]

lemma isComplete_scoreChange_outside {dimension : String}
    (h : dimension ∉ requiredDimensions) (score : ScoreLevel) (prev : Scores) :
    isComplete (handleScoreChange dimension score prev) = isComplete prev := by
  apply all_congr_of_eq
  intro d hd
  have hne : d ≠ dimension := fun he => h (he ▸ hd)
  simp [handleScoreChange, hne]

/-! ## Concrete fixtures used by witnesses and counterexamples -/

/-- A submitted idea. -/
def wIdea1 : Idea := { id := 1, status := Status.submitted }

/-- An idea already under review. -/
def wIdea2 : Idea := { id := 2, status := Status.under_review }

/-- An assessed idea. -/
def wIdea3 : Idea := { id := 3, status := Status.assessed }

/-- A rejected idea. -/
def wIdea4 : Idea := { id := 4, status := Status.rejected }

/-- A store holding one idea of each status. -/
def wStore4 : List Idea := [wIdea1, wIdea2, wIdea3, wIdea4]

/-- The fully-scored draft from the spec's submission scenario. -/
def wScoreCalls : List (String × ScoreLevel) :=
  [("businessGrowth", ScoreLevel.high), ("costEfficiency", ScoreLevel.medium),
   ("businessResilience", ScoreLevel.high), ("businessAgility", ScoreLevel.medium),
   ("technicalFeasibility", ScoreLevel.high), ("internalReadiness", ScoreLevel.medium),
   ("externalReadiness", ScoreLevel.high)]

/-- The score map after applying the scenario's seven `setScore` calls. -/
def wScores : Scores := applyScoreChanges wScoreCalls emptyScores

/-- A fresh session: nothing selected, empty draft. -/
def wEmptySession : SessionState :=
  { pendingIdeas := []
    selectedIdea := none
    submitting := false
    scores := emptyScores
    rationales := emptyRationales }

/-- A session with `wIdea2` selected and a complete draft. -/
def wReadySession : SessionState :=
  { pendingIdeas := [wIdea2]
    selectedIdea := some wIdea2
    submitting := false
    scores := wScores
    rationales := emptyRationales }

/-- `wReadySession` with a submit in flight. -/
def wBusySession : SessionState := { wReadySession with submitting := true }

/-- A session with a selection and one score entered — the state just before a
click on Cancel. -/
def wCancelSession : SessionState :=
  { pendingIdeas := [wIdea2]
    selectedIdea := some wIdea2
    submitting := false
    scores := handleScoreChange "businessGrowth" ScoreLevel.high emptyScores
    rationales := emptyRationales }

/-- A one-idea core state for stepping the state machine. -/
def wCore : CoreState :=
  { store := [wIdea1]
    session :=
      { pendingIdeas := [wIdea1]
        selectedIdea := none
        submitting := false
        scores := emptyScores
        rationales := emptyRationales } }

/-! ## Claim theorems -/

/-- Claim C4: `isComplete()` returns true iff every one of the seven required
dimensions (businessGrowth, costEfficiency, businessResilience,
businessAgility, technicalFeasibility, internalReadiness, externalReadiness)
has an assigned score, for every sequence of `setScore` calls regardless of
order or repeated overwrites.  Rationales are never required: `isComplete`
takes only the score map (the source reads only `scores`), so no rationale can
influence it. -/
theorem isComplete_iff_all_dimensions_set (calls : List (String × ScoreLevel)) :
    isComplete (applyScoreChanges calls emptyScores) = true ↔
      ∀ d ∈ requiredDimensions, d ∈ calls.map Prod.fst := by
  simp only [isComplete, List.all_eq_true]
  constructor
  · intro h d hd
    rcases (isSome_applyScoreChanges calls emptyScores d).mp (h d hd) with h1 | h1
    · exact h1
    · simp [emptyScores] at h1
  · intro h d hd
    exact (isSome_applyScoreChanges calls emptyScores d).mpr (Or.inl (h d hd))

/-- Witness for C4: the spec's seven-call scenario yields a complete draft. -/
theorem isComplete_iff_all_dimensions_set_witness :
    isComplete (applyScoreChanges wScoreCalls emptyScores) = true :=
  (isComplete_iff_all_dimensions_set wScoreCalls).mpr (by decide)

/-- Counterexample to claim C7: setting a score (or rationale) for the
dimension `"bogusDimension"`, which is outside the fixed seven, is not
rejected — `handleScoreChange` has no error outcome and stores the entry
under the unknown key, changing the draft. -/
theorem scoreChange_accepts_unknown_dimension :
    handleScoreChange "bogusDimension" ScoreLevel.low emptyScores "bogusDimension"
        = some ScoreLevel.low ∧
    handleScoreChange "bogusDimension" ScoreLevel.low emptyScores ≠ emptyScores ∧
    handleRationaleChange "bogusDimension" "why" emptyRationales "bogusDimension" = some "why" := by
  have h1 : handleScoreChange "bogusDimension" ScoreLevel.low emptyScores "bogusDimension"
      = some ScoreLevel.low := by simp [handleScoreChange]
  refine ⟨h1, fun he => ?_, by simp [handleRationaleChange]⟩
  rw [he] at h1
  simp [emptyScores] at h1

/-- Claim C7 as amended: setting a score or rationale for a dimension outside
the fixed seven is silently accepted — the entry is stored under the given
key with no error — and such an entry never affects `isComplete`. -/
theorem scoreChange_unknown_dimension_spec (dimension : String) (score : ScoreLevel)
    (prev : Scores) (rationale : String) (prevR : Rationales)
    (h : dimension ∉ requiredDimensions) :
    handleScoreChange dimension score prev dimension = some score ∧
    handleRationaleChange dimension rationale prevR dimension = some rationale ∧
    isComplete (handleScoreChange dimension score prev) = isComplete prev :=
  ⟨by simp [handleScoreChange], by simp [handleRationaleChange],
   isComplete_scoreChange_outside h score prev⟩

/-- Witness for amended C7 at the concrete dimension `"bogusDimension"`. -/
theorem scoreChange_unknown_dimension_spec_witness :
    "bogusDimension" ∉ requiredDimensions ∧
    (handleScoreChange "bogusDimension" ScoreLevel.high wScores "bogusDimension"
        = some ScoreLevel.high ∧
      handleRationaleChange "bogusDimension" "why" emptyRationales "bogusDimension" = some "why" ∧
      isComplete (handleScoreChange "bogusDimension" ScoreLevel.high wScores)
        = isComplete wScores) :=
  ⟨by decide,
   scoreChange_unknown_dimension_spec "bogusDimension" ScoreLevel.high wScores "why"
     emptyRationales (by decide)⟩

/-- Counterexample to claim C6: after Cancel, the draft is not reset — the
score entered before the click is still present (the source's Cancel button
only does `setSelectedIdea(null)`). -/
theorem cancelSelection_does_not_reset_draft :
    (cancelSelection wCancelSession []).session.scores "businessGrowth" = some ScoreLevel.high ∧
    (cancelSelection wCancelSession []).session.scores ≠ emptyScores := by
  have h1 : (cancelSelection wCancelSession []).session.scores "businessGrowth"
      = some ScoreLevel.high := by
    simp [cancelSelection, wCancelSession, handleScoreChange]
  refine ⟨h1, fun he => ?_⟩
  rw [he] at h1
  simp [emptyScores] at h1

/-- Claim C6 as amended: `cancelSelection` clears the selection and issues no
store write (the idea stays `under_review`); it leaves the draft's scores and
rationales unchanged rather than resetting them (they are reset by the next
`selectIdea`). -/
theorem cancelSelection_spec (st : SessionState) (store : List Idea) :
    (cancelSelection st store).session.selectedIdea = none ∧
    (cancelSelection st store).calls = [] ∧
    (cancelSelection st store).store = store ∧
    (cancelSelection st store).session.scores = st.scores ∧
    (cancelSelection st store).session.rationales = st.rationales ∧
    (cancelSelection st store).session.pendingIdeas = st.pendingIdeas :=
  ⟨rfl, rfl, rfl, rfl, rfl, rfl⟩

/-- Claim C9: fetching the pending list queries the store for ideas with
status `submitted` and for ideas with status `under_review` and returns
exactly their concatenation; ideas with status `assessed` or `rejected` never
appear in the pending list. -/
theorem fetchPendingIdeas_spec (store : List Idea) :
    fetchPendingIdeasResult store =
      getIdeasByStatus Status.submitted store ++ getIdeasByStatus Status.under_review store ∧
    (∀ idea : Idea, idea ∈ fetchPendingIdeasResult store ↔
      idea ∈ store ∧ (idea.status = Status.submitted ∨ idea.status = Status.under_review)) ∧
    (∀ idea : Idea, (idea.status = Status.assessed ∨ idea.status = Status.rejected) →
      idea ∉ fetchPendingIdeasResult store) := by
  refine ⟨rfl, fun idea => mem_fetchPendingIdeasResult, fun idea h hmem => ?_⟩
  rcases (mem_fetchPendingIdeasResult.mp hmem).2 with h1 | h1 <;>
    rcases h with h2 | h2 <;> rw [h2] at h1 <;> cases h1

/-- Witness for C9: in the four-status store, the assessed idea is excluded
from the pending list. -/
theorem fetchPendingIdeas_spec_witness :
    (wIdea3.status = Status.assessed ∨ wIdea3.status = Status.rejected) ∧
    wIdea3 ∉ fetchPendingIdeasResult wStore4 :=
  ⟨Or.inl rfl, (fetchPendingIdeas_spec wStore4).2.2 wIdea3 (Or.inl rfl)⟩

/-- Claim C2: whenever no idea is selected or the draft is incomplete,
`handleSubmitAssessment` fails with the validation error and issues zero
store calls; session and store are untouched. -/
theorem submitAssessment_validation (st : SessionState) (store : List Idea) (storeOk : Bool)
    (h : st.selectedIdea = none ∨ isComplete st.scores = false) :
    (handleSubmitAssessment st store storeOk).result = SubmitResult.validationError ∧
    (handleSubmitAssessment st store storeOk).calls = [] ∧
    (handleSubmitAssessment st store storeOk).session = st ∧
    (handleSubmitAssessment st store storeOk).store = store := by
  rcases h with h | h
  · simp [handleSubmitAssessment, h]
  · cases hsel : st.selectedIdea with
    | none => simp [handleSubmitAssessment, hsel]
    | some idea => simp [handleSubmitAssessment, hsel, h]

/-- Witness for C2: submitting with no idea selected is refused with no store
contact. -/
theorem submitAssessment_validation_witness :
    (wEmptySession.selectedIdea = none ∨ isComplete wEmptySession.scores = false) ∧
    (handleSubmitAssessment wEmptySession [] true).result = SubmitResult.validationError ∧
    (handleSubmitAssessment wEmptySession [] true).calls = [] :=
  ⟨Or.inl rfl,
   (submitAssessment_validation wEmptySession [] true (Or.inl rfl)).1,
   (submitAssessment_validation wEmptySession [] true (Or.inl rfl)).2.1⟩

/-- Claim C3: if the store's submit call fails, the submission error is
surfaced, the draft's scores and rationales are exactly those present before
the call, the selection and pending list are unchanged, and the pending list
is not re-queried (the only store call is the failed submit — no query is
issued). -/
theorem submitAssessment_store_failure (st : SessionState) (store : List Idea) (idea : Idea)
    (hsel : st.selectedIdea = some idea) (hc : isComplete st.scores = true) :
    (handleSubmitAssessment st store false).result = SubmitResult.submissionError ∧
    (handleSubmitAssessment st store false).session.scores = st.scores ∧
    (handleSubmitAssessment st store false).session.rationales = st.rationales ∧
    (handleSubmitAssessment st store false).session.selectedIdea = st.selectedIdea ∧
    (handleSubmitAssessment st store false).session.pendingIdeas = st.pendingIdeas ∧
    (handleSubmitAssessment st store false).calls =
      [StoreCall.submitAssessment idea.id (buildAssessmentRecord st)] ∧
    (∀ c ∈ (handleSubmitAssessment st store false).calls, c.isQuery = false) ∧
    (handleSubmitAssessment st store false).store = store := by
  simp [handleSubmitAssessment, hsel, hc, StoreCall.isQuery]

/-- Witness for C3: a failed submit on the complete scenario draft keeps every
score. -/
theorem submitAssessment_store_failure_witness :
    wReadySession.selectedIdea = some wIdea2 ∧ isComplete wReadySession.scores = true ∧
    (handleSubmitAssessment wReadySession [wIdea2] false).result
        = SubmitResult.submissionError ∧
    (handleSubmitAssessment wReadySession [wIdea2] false).session.scores
        = wReadySession.scores :=
  ⟨rfl, by decide,
   (submitAssessment_store_failure wReadySession [wIdea2] wIdea2 rfl (by decide)).1,
   (submitAssessment_store_failure wReadySession [wIdea2] wIdea2 rfl (by decide)).2.1⟩

/-- Claim C1: with an idea selected and a complete draft, a successful
`handleSubmitAssessment` calls the store's submit with a record carrying all
seven dimension scores from the draft (each present), the rationale mapping,
and `assessedBy` equal to the attribution (the source's constant
`"Assessment Team"`); it then clears the selection, clears the draft's scores
and rationales, and re-queries the pending list against the updated store. -/
theorem submitAssessment_success (st : SessionState) (store : List Idea) (idea : Idea)
    (hsel : st.selectedIdea = some idea) (hc : isComplete st.scores = true) :
    ((handleSubmitAssessment st store true).result = SubmitResult.success ∧
      (handleSubmitAssessment st store true).calls =
        [StoreCall.submitAssessment idea.id (buildAssessmentRecord st),
         StoreCall.getIdeasByStatus Status.submitted,
         StoreCall.getIdeasByStatus Status.under_review]) ∧
    ((buildAssessmentRecord st).businessGrowth = st.scores "businessGrowth" ∧
      (buildAssessmentRecord st).costEfficiency = st.scores "costEfficiency" ∧
      (buildAssessmentRecord st).businessResilience = st.scores "businessResilience" ∧
      (buildAssessmentRecord st).businessAgility = st.scores "businessAgility" ∧
      (buildAssessmentRecord st).technicalFeasibility = st.scores "technicalFeasibility" ∧
      (buildAssessmentRecord st).internalReadiness = st.scores "internalReadiness" ∧
      (buildAssessmentRecord st).externalReadiness = st.scores "externalReadiness") ∧
    ((buildAssessmentRecord st).businessGrowth.isSome = true ∧
      (buildAssessmentRecord st).costEfficiency.isSome = true ∧
      (buildAssessmentRecord st).businessResilience.isSome = true ∧
      (buildAssessmentRecord st).businessAgility.isSome = true ∧
      (buildAssessmentRecord st).technicalFeasibility.isSome = true ∧
      (buildAssessmentRecord st).internalReadiness.isSome = true ∧
      (buildAssessmentRecord st).externalReadiness.isSome = true) ∧
    ((buildAssessmentRecord st).rationales = st.rationales ∧
      (buildAssessmentRecord st).assessedBy = "Assessment Team") ∧
    ((handleSubmitAssessment st store true).session.selectedIdea = none ∧
      (handleSubmitAssessment st store true).session.scores = emptyScores ∧
      (handleSubmitAssessment st store true).session.rationales = emptyRationales ∧
      (handleSubmitAssessment st store true).store = storeSubmitAssessment idea.id store ∧
      (handleSubmitAssessment st store true).session.pendingIdeas =
        fetchPendingIdeasResult (storeSubmitAssessment idea.id store)) := by
  have hall := hc
  simp only [isComplete, requiredDimensions, List.all_cons, List.all_nil, Bool.and_eq_true,
    and_true] at hall
  obtain ⟨h1, h2, h3, h4, h5, h6, h7⟩ := hall
  refine ⟨?_, ⟨rfl, rfl, rfl, rfl, rfl, rfl, rfl⟩, ⟨h1, h2, h3, h4, h5, h6, h7⟩,
    ⟨rfl, rfl⟩, ?_⟩ <;>
    simp [handleSubmitAssessment, hsel, hc, fetchCalls]

/-- Witness for C1: the scenario submit succeeds and dispatches the record
followed by the two pending-list queries. -/
theorem submitAssessment_success_witness :
    wReadySession.selectedIdea = some wIdea2 ∧ isComplete wReadySession.scores = true ∧
    (handleSubmitAssessment wReadySession [wIdea2] true).result = SubmitResult.success ∧
    (handleSubmitAssessment wReadySession [wIdea2] true).calls =
      [StoreCall.submitAssessment wIdea2.id (buildAssessmentRecord wReadySession),
       StoreCall.getIdeasByStatus Status.submitted,
       StoreCall.getIdeasByStatus Status.under_review] :=
  ⟨rfl, by decide,
   (submitAssessment_success wReadySession [wIdea2] wIdea2 rfl (by decide)).1.1,
   (submitAssessment_success wReadySession [wIdea2] wIdea2 rfl (by decide)).1.2⟩

/-- Claim C5: `handleSelectIdea` always sets the selection to the idea and
resets the draft's scores and rationales to empty; when the idea's status is
`submitted` it issues exactly one store status update to `under_review`
followed by a pending-list refresh, and when the idea is already
`under_review` it performs no store call at all, leaving the store — and so
the idea's status — unchanged. -/
theorem selectIdea_spec (idea : Idea) (st : SessionState) (store : List Idea) :
    (handleSelectIdea idea st store).session.selectedIdea = some idea ∧
    (handleSelectIdea idea st store).session.scores = emptyScores ∧
    (handleSelectIdea idea st store).session.rationales = emptyRationales ∧
    (idea.status = Status.submitted →
      (handleSelectIdea idea st store).calls =
        [StoreCall.updateIdeaStatus idea.id Status.under_review,
         StoreCall.getIdeasByStatus Status.submitted,
         StoreCall.getIdeasByStatus Status.under_review] ∧
      ((handleSelectIdea idea st store).calls.countP fun c => c.isStatusUpdate) = 1 ∧
      (handleSelectIdea idea st store).store =
        updateIdeaStatus idea.id Status.under_review store ∧
      (handleSelectIdea idea st store).session.pendingIdeas =
        fetchPendingIdeasResult (updateIdeaStatus idea.id Status.under_review store)) ∧
    (idea.status = Status.under_review →
      (handleSelectIdea idea st store).calls = [] ∧
      (handleSelectIdea idea st store).store = store) := by
  by_cases h : idea.status = Status.submitted
  · refine ⟨?_, ?_, ?_, fun _ => ⟨?_, ?_, ?_, ?_⟩,
      fun hur => absurd (h.symm.trans hur) (by decide)⟩ <;>
      simp [handleSelectIdea, h, fetchCalls, List.countP, List.countP.go,
        StoreCall.isStatusUpdate]
  · refine ⟨?_, ?_, ?_, fun hsub => absurd hsub h, fun _ => ⟨?_, ?_⟩⟩ <;>
      simp [handleSelectIdea, h]

/-- Witness for C5: selecting the submitted idea issues the single status
update plus refresh; selecting the under-review idea issues nothing. -/
theorem selectIdea_spec_witness :
    wIdea1.status = Status.submitted ∧
    (handleSelectIdea wIdea1 wEmptySession [wIdea1]).calls =
      [StoreCall.updateIdeaStatus wIdea1.id Status.under_review,
       StoreCall.getIdeasByStatus Status.submitted,
       StoreCall.getIdeasByStatus Status.under_review] ∧
    wIdea2.status = Status.under_review ∧
    (handleSelectIdea wIdea2 wEmptySession [wIdea2]).calls = [] :=
  ⟨rfl, ((selectIdea_spec wIdea1 wEmptySession [wIdea1]).2.2.2.1 rfl).1,
   rfl, ((selectIdea_spec wIdea2 wEmptySession [wIdea2]).2.2.2.2 rfl).1⟩

/-- Claim C10: while a submit for the current draft is outstanding
(`submitting = true`, which the dispatch itself establishes — last conjunct),
a further click on Submit is rejected by the disabled guard: nothing runs and
zero store calls are issued, so the same draft is never dispatched twice. -/
theorem submit_in_flight_not_dispatched (st : SessionState) (store : List Idea)
    (storeOk : Bool) (h : st.submitting = true) :
    (clickSubmit st store storeOk).result = none ∧
    (clickSubmit st store storeOk).session = st ∧
    (clickSubmit st store storeOk).store = store ∧
    (clickSubmit st store storeOk).calls = [] ∧
    (∀ st2 : SessionState, (handleSubmitAssessmentStart st2).2.2 ≠ [] →
      (handleSubmitAssessmentStart st2).2.1.submitting = true) := by
  have hd : submitDisabled st = true := by simp [submitDisabled, h]
  refine ⟨by simp [clickSubmit, hd], by simp [clickSubmit, hd], by simp [clickSubmit, hd],
    by simp [clickSubmit, hd], fun st2 hne => ?_⟩
  cases hsel : st2.selectedIdea with
  | none => simp [handleSubmitAssessmentStart, hsel] at hne
  | some idea =>
    by_cases hcomp : isComplete st2.scores = false
    · simp [handleSubmitAssessmentStart, hsel, hcomp] at hne
    · simp [handleSubmitAssessmentStart, hsel, hcomp]

/-- Witness for C10: with the scenario submit in flight, a further click
issues no store call. -/
theorem submit_in_flight_not_dispatched_witness :
    wBusySession.submitting = true ∧
    (clickSubmit wBusySession [wIdea2] true).calls = [] ∧
    (clickSubmit wBusySession [wIdea2] true).result = none :=
  ⟨rfl, (submit_in_flight_not_dispatched wBusySession [wIdea2] true rfl).2.2.2.1,
   (submit_in_flight_not_dispatched wBusySession [wIdea2] true rfl).1⟩

/-- Claim C8: under the core's operations (pending-list refresh, selectIdea,
cancelSelection, submitAssessment), an idea's status only moves forward along
`submitted → under_review → assessed`: stepping any operation from a
well-formed state never writes an earlier status than an idea's current one
(each store entry keeps its id and its status rank does not decrease), and
the well-formedness invariant is preserved. -/
theorem status_monotonic (op : Op) (s : CoreState) (hg : GoodState s) (hw : WfOp op s) :
    List.Forall₂ StatusLe s.store (stepOp op s).store ∧ GoodState (stepOp op s) := by
  obtain ⟨hnodup, hpending, hselinv⟩ := hg
  cases op with
  | cancel =>
    refine ⟨forall₂_statusLe_refl _, hnodup, hpending, ?_⟩
    intro idea hidea
    simp [stepOp, cancelSelection, Option.toList] at hidea
  | refresh =>
    refine ⟨forall₂_statusLe_refl _, hnodup, ?_, hselinv⟩
    intro idea hidea
    exact mem_fetchPendingIdeasResult.mp hidea
  | select idea =>
    obtain ⟨hmem, hstat⟩ := hpending idea hw
    by_cases h : idea.status = Status.submitted
    · have hstore : (stepOp (Op.select idea) s).store =
          updateIdeaStatus idea.id Status.under_review s.store := by
        simp [stepOp, handleSelectIdea, h]
      have hpend : (stepOp (Op.select idea) s).session.pendingIdeas =
          fetchPendingIdeasResult (updateIdeaStatus idea.id Status.under_review s.store) := by
        simp [stepOp, handleSelectIdea, h]
      have hsel2 : (stepOp (Op.select idea) s).session.selectedIdea = some idea := by
        simp [stepOp, handleSelectIdea, h]
      refine ⟨?_, ?_, ?_, ?_⟩
      · rw [hstore]
        apply forall₂_statusLe_updateIdeaStatus
        intro a ha haid
        rw [eq_of_mem_of_id_eq hnodup ha hmem haid, h]
        decide
      · rw [hstore, map_id_updateIdeaStatus]
        exact hnodup
      · rw [hpend, hstore]
        intro b hb
        exact mem_fetchPendingIdeasResult.mp hb
      · rw [hsel2, hstore]
        intro b hb j hj hjid
        simp only [Option.toList, List.mem_singleton] at hb
        rw [hb] at hjid
        rcases mem_updateIdeaStatus.mp hj with ⟨a, ha, rfl⟩
        by_cases haid : a.id = idea.id
        · rw [if_pos haid]
        · rw [if_neg haid] at hjid
          exact absurd hjid haid
    · have hstore : (stepOp (Op.select idea) s).store = s.store := by
        simp [stepOp, handleSelectIdea, h]
      have hpend : (stepOp (Op.select idea) s).session.pendingIdeas =
          s.session.pendingIdeas := by
        simp [stepOp, handleSelectIdea, h]
      have hsel2 : (stepOp (Op.select idea) s).session.selectedIdea = some idea := by
        simp [stepOp, handleSelectIdea, h]
      have hur : idea.status = Status.under_review := hstat.resolve_left h
      refine ⟨?_, ?_, ?_, ?_⟩
      · rw [hstore]
        exact forall₂_statusLe_refl _
      · rw [hstore]
        exact hnodup
      · rw [hpend, hstore]
        exact hpending
      · rw [hsel2, hstore]
        intro b hb j hj hjid
        simp only [Option.toList, List.mem_singleton] at hb
        rw [hb] at hjid
        rw [eq_of_mem_of_id_eq hnodup hj hmem hjid, hur]
  | submit storeOk =>
    cases hsel : s.session.selectedIdea with
    | none =>
      have hstep : stepOp (Op.submit storeOk) s = s := by
        simp [stepOp, handleSubmitAssessment, hsel]
      rw [hstep]
      exact ⟨forall₂_statusLe_refl _, hnodup, hpending, hselinv⟩
    | some idea =>
      by_cases hcomp : isComplete s.session.scores = false
      · have hstep : stepOp (Op.submit storeOk) s = s := by
          simp [stepOp, handleSubmitAssessment, hsel, hcomp]
        rw [hstep]
        exact ⟨forall₂_statusLe_refl _, hnodup, hpending, hselinv⟩
      · cases storeOk with
        | false =>
          have hstore : (stepOp (Op.submit false) s).store = s.store := by
            simp [stepOp, handleSubmitAssessment, hsel, hcomp]
          have hpend : (stepOp (Op.submit false) s).session.pendingIdeas =
              s.session.pendingIdeas := by
            simp [stepOp, handleSubmitAssessment, hsel, hcomp]
          have hsel2 : (stepOp (Op.submit false) s).session.selectedIdea =
              s.session.selectedIdea := by
            simp [stepOp, handleSubmitAssessment, hsel, hcomp]
          refine ⟨?_, ?_, ?_, ?_⟩
          · rw [hstore]
            exact forall₂_statusLe_refl _
          · rw [hstore]
            exact hnodup
          · rw [hpend, hstore]
            exact hpending
          · rw [hsel2, hstore]
            exact hselinv
        | true =>
          have hur : ∀ a ∈ s.store, a.id = idea.id → a.status = Status.under_review :=
            fun a ha haid => hselinv idea (by simp [hsel]) a ha haid
          have hstore : (stepOp (Op.submit true) s).store =
              updateIdeaStatus idea.id Status.assessed s.store := by
            simp [stepOp, handleSubmitAssessment, hsel, hcomp, storeSubmitAssessment]
          have hpend : (stepOp (Op.submit true) s).session.pendingIdeas =
              fetchPendingIdeasResult (updateIdeaStatus idea.id Status.assessed s.store) := by
            simp [stepOp, handleSubmitAssessment, hsel, hcomp, storeSubmitAssessment]
          have hsel2 : (stepOp (Op.submit true) s).session.selectedIdea = none := by
            simp [stepOp, handleSubmitAssessment, hsel, hcomp]
          refine ⟨?_, ?_, ?_, ?_⟩
          · rw [hstore]
            apply forall₂_statusLe_updateIdeaStatus
            intro a ha haid
            rw [hur a ha haid]
            decide
          · rw [hstore, map_id_updateIdeaStatus]
            exact hnodup
          · rw [hpend, hstore]
            intro b hb
            exact mem_fetchPendingIdeasResult.mp hb
          · rw [hsel2]
            intro b hb
            simp [Option.toList] at hb

/-- Witness for C8: stepping the one-idea core state by selecting its
submitted idea satisfies the invariant hypotheses and yields a monotone
store. -/
theorem status_monotonic_witness :
    GoodState wCore ∧ WfOp (Op.select wIdea1) wCore ∧
    (List.Forall₂ StatusLe wCore.store (stepOp (Op.select wIdea1) wCore).store ∧
      GoodState (stepOp (Op.select wIdea1) wCore)) :=
  have hg : GoodState wCore := ⟨by decide, by decide, by decide⟩
  have hw : WfOp (Op.select wIdea1) wCore :=
    (by decide : wIdea1 ∈ wCore.session.pendingIdeas)
  ⟨hg, hw, status_monotonic (Op.select wIdea1) wCore hg hw⟩

end AssessmentQueue
